import Mathlib

/-!
Verification of the pi-lossless-player core against its specification.

The Python sources (network_handler.py, utils.py, music_library.py,
config.py) are shallowly embedded below: stateful code becomes explicit
state passing over small state records, OS-command outcomes become fields
of an environment record, and SQLite tables become Lean lists with the
insert-or-replace semantics spelled out (the new rowid is chosen before
the conflicting row is deleted: one more than the largest rowid in use,
the replaced row included).
-/

namespace PiPlayer

/-! Configuration constants, from config.py. -/

def MOUNT_POINT : String := "/mnt/music"

def CACHE_PATH : String := "/home/pi/pi_lossless_player/cache"

namespace Net

/-! Embedding of network_handler.py.  The mount state of the OS is a
single boolean; `execute_command` outcomes (utils.py catches
`CalledProcessError` and returns `None`, so a failed command yields
`none` and never raises) are supplied by the environment.  Every
operation returns its value together with the final mount state and a
trace of the OS-touching effects it performed. -/

structure NetState where
  mounted : Bool
deriving Repr, DecidableEq

inductive Effect where
  | isMountedCheck
  | umountCmd
  | mountCmd
  | copyCmd (path : String)
deriving Repr, DecidableEq

structure Env where
  cacheEnabled : Bool
  cacheExists : String → Bool
  remoteExists : String → Bool
  umountSucceeds : Bool
  mountSucceeds : Bool
  copySucceeds : String → Bool

structure Res (α : Type) where
  val : α
  state : NetState
  trace : List Effect

theorem Res.ext_iff {α : Type} (a b : Res α) :
    a = b ↔ a.val = b.val ∧ a.state = b.state ∧ a.trace = b.trace := by
  cases a; cases b; simp

/-- `is_mounted`: runs `mount | grep -q MOUNT_POINT`; the command result is
`none` exactly when the share is not in the mount table, so the returned
boolean reflects the current mount state. -/
def is_mounted (s : NetState) : Res Bool :=
  ⟨s.mounted, s, [Effect.isMountedCheck]⟩

/-- `unmount_share`: if mounted, run `umount MOUNT_POINT` and return `True`;
if not mounted, return `True`.  A failing `umount` command is converted to
`None` by `execute_command` (no exception), so the `except` branch that
returns `False` is unreachable for command failures. -/
def unmount_share (env : Env) (s : NetState) : Res Bool :=
  let m := is_mounted s
  if m.val then
    let s2 := if env.umountSucceeds then { m.state with mounted := false } else m.state
    ⟨true, s2, m.trace ++ [Effect.umountCmd]⟩
  else
    ⟨true, m.state, m.trace⟩

/-- `mount_share`: unmount any stale mount, run the cifs mount command, then
report the result of a fresh mount-table check. -/
def mount_share (env : Env) (s : NetState) : Res Bool :=
  let u := unmount_share env s
  let s2 : NetState := if env.mountSucceeds then { mounted := true } else u.state
  let m := is_mounted s2
  ⟨m.val, m.state, u.trace ++ [Effect.mountCmd] ++ m.trace⟩

/-- `ensure_mounted`: mount-table check, mounting when absent. -/
def ensure_mounted (env : Env) (s : NetState) : Res Bool :=
  let m := is_mounted s
  if m.val then ⟨true, m.state, m.trace⟩
  else
    let r := mount_share env m.state
    ⟨r.val, r.state, m.trace ++ r.trace⟩

def cache_file (p : String) : String := CACHE_PATH ++ "/" ++ p

def network_file (p : String) : String := MOUNT_POINT ++ "/" ++ p

/-- `get_file_path`: cache hit → cache path; otherwise ensure mounted,
check remote existence, copy into the cache (falling back to the
mount-point path when the copy raises), or, with caching disabled, return
the mount-point path directly. -/
def get_file_path (env : Env) (s : NetState) (p : String) : Res (Option String) :=
  if env.cacheEnabled then
    if env.cacheExists p then ⟨some (cache_file p), s, []⟩
    else
      let em := ensure_mounted env s
      if !em.val then ⟨none, em.state, em.trace⟩
      else if !(env.remoteExists p) then ⟨none, em.state, em.trace⟩
      else if env.copySucceeds p then ⟨some (cache_file p), em.state, em.trace ++ [Effect.copyCmd p]⟩
      else ⟨some (network_file p), em.state, em.trace ++ [Effect.copyCmd p]⟩
  else
    let em := ensure_mounted env s
    if !em.val then ⟨none, em.state, em.trace⟩
    else if env.remoteExists p then ⟨some (network_file p), em.state, em.trace⟩
    else ⟨none, em.state, em.trace⟩

end Net

end PiPlayer

namespace PiPlayer

open Net

/-- Environment in which the `umount` command fails (the share stays
mounted); the other fields are irrelevant to `unmount_share`. -/
def umountFailEnv : Net.Env :=
  { cacheEnabled := true
    cacheExists := fun _ => false
    remoteExists := fun _ => false
    umountSucceeds := false
    mountSucceeds := false
    copySucceeds := fun _ => false }

/-- C1 counterexample: starting mounted, with the OS `umount` command
failing, `unmount_share` still returns `true` while the share remains
mounted — the claim demands `false` in exactly this situation. -/
theorem unmount_share_c1_counterexample :
    (unmount_share umountFailEnv ⟨true⟩).val = true ∧
      (unmount_share umountFailEnv ⟨true⟩).state.mounted = true := by
  constructor <;> rfl

/-- C1 (amended): `unmount_share` returns `true` for every initial mount
state and every command outcome; command failures are converted to `None`
by `execute_command` without raising, so the `False` branch is unreachable
and the return value does not certify the final mount state. -/
theorem unmount_share_always_true (env : Net.Env) (s : NetState) :
    (unmount_share env s).val = true := by
  unfold unmount_share is_mounted
  cases h : s.mounted <;> simp [h]

/-- C5: with caching enabled and a cache entry present for `p`,
`get_file_path` returns the cache path, leaves the mount state unchanged,
and records no mount check or other remote effect. -/
theorem get_file_path_cache_hit (env : Net.Env) (s : NetState) (p : String)
    (hc : env.cacheEnabled = true) (he : env.cacheExists p = true) :
    get_file_path env s p = ⟨some (cache_file p), s, []⟩ := by
  unfold get_file_path
  rw [hc, he]
  simp

namespace Cache

/-! Embedding of utils.py `clean_cache`.  A cache state is the list of
files under the cache root, each with its size (in GB, as the Python code
divides byte counts by 2^30 before comparing) and last-access time; byte
arithmetic is carried out exactly over `ℚ`.  `clean_cache` returns the
list of files remaining on disk. -/

structure CFile where
  path : String
  size : ℚ
  atime : ℚ
deriving Repr, DecidableEq

def totalSize (l : List CFile) : ℚ := (l.map CFile.size).sum

def atimeLE (a b : CFile) : Prop := a.atime ≤ b.atime

instance : DecidableRel atimeLE := fun a b => inferInstanceAs (Decidable (a.atime ≤ b.atime))

instance : IsTotal CFile atimeLE := ⟨fun a b => le_total a.atime b.atime⟩

instance : IsTrans CFile atimeLE := ⟨fun _ _ _ => le_trans⟩

/-- `files.sort(key=lambda x: x[1])`: ascending last-access time. -/
def sortByAtime (l : List CFile) : List CFile := List.insertionSort atimeLE l

/-- The removal loop: delete the head (oldest) file, recompute the total
size of what remains, and stop as soon as it is strictly below
`0.8 * maxGB`. -/
def evictLoop (maxGB : ℚ) : List CFile → List CFile
  | [] => []
  | _ :: rest => if totalSize rest < 4 / 5 * maxGB then rest else evictLoop maxGB rest

/-- `clean_cache(cache_path, max_size_gb)`: when the total size exceeds
the limit, remove files oldest-first until the remainder is strictly
below 80% of the limit. -/
def clean_cache (files : List CFile) (maxGB : ℚ) : List CFile :=
  if totalSize files > maxGB then evictLoop maxGB (sortByAtime files) else files

theorem evictLoop_le (m : ℚ) (hm : 0 ≤ m) :
    ∀ l : List CFile, totalSize (evictLoop m l) ≤ 4 / 5 * m
  | [] => by
    simp only [evictLoop, totalSize, List.map_nil, List.sum_nil]
    linarith
  | f :: rest => by
    unfold evictLoop
    split
    · linarith
    · exact evictLoop_le m hm rest

theorem evictLoop_suffix (m : ℚ) : ∀ l : List CFile, evictLoop m l <:+ l
  | [] => List.suffix_refl []
  | f :: rest => by
    unfold evictLoop
    split
    · exact List.suffix_cons f rest
    · exact (evictLoop_suffix m rest).trans (List.suffix_cons f rest)

theorem evictLoop_min (m : ℚ) :
    ∀ l : List CFile, ¬ totalSize l < 4 / 5 * m →
      ∀ j, j < l.length - (evictLoop m l).length → ¬ totalSize (l.drop j) < 4 / 5 * m
  | [], h, j, hj => by
    simp [evictLoop] at hj
  | f :: rest, h, j, hj => by
    unfold evictLoop at hj
    by_cases hrest : totalSize rest < 4 / 5 * m
    · rw [if_pos hrest] at hj
      have hj0 : j = 0 := by
        simp only [List.length_cons] at hj
        omega
      simpa [hj0] using h
    · rw [if_neg hrest] at hj
      match j with
      | 0 => simpa using h
      | j + 1 =>
        have hlen : (evictLoop m rest).length ≤ rest.length :=
          (evictLoop_suffix m rest).length_le
        have : j < rest.length - (evictLoop m rest).length := by
          simp only [List.length_cons] at hj
          omega
        simpa using evictLoop_min m rest hrest j this

theorem totalSize_sortByAtime (l : List CFile) : totalSize (sortByAtime l) = totalSize l := by
  unfold totalSize sortByAtime
  exact List.Perm.sum_eq (List.Perm.map CFile.size (List.perm_insertionSort atimeLE l))

end Cache

open Cache

/-- C2 (amended): when the cache exceeds `maxGB` (with `0 ≤ maxGB`), after
`clean_cache` the total size is at most `0.8 * maxGB`; the surviving files
are a suffix of the access-time-sorted list (files are removed strictly
oldest-first); and the number removed is minimal for the *strict* 80%
threshold the code tests: for every smaller removal count, the remaining
total is not strictly below `0.8 * maxGB`. -/
theorem clean_cache_c2_amended (files : List CFile) (m : ℚ) (hm : 0 ≤ m)
    (hover : totalSize files > m) :
    totalSize (clean_cache files m) ≤ 4 / 5 * m ∧
      clean_cache files m <:+ sortByAtime files ∧
      ∀ j, j < (sortByAtime files).length - (clean_cache files m).length →
        ¬ totalSize ((sortByAtime files).drop j) < 4 / 5 * m := by
  have hsorted : totalSize (sortByAtime files) = totalSize files := totalSize_sortByAtime files
  have hnot : ¬ totalSize (sortByAtime files) < 4 / 5 * m := by
    rw [hsorted]; linarith
  unfold clean_cache
  rw [if_pos hover]
  exact ⟨evictLoop_le m hm _, evictLoop_suffix m _, evictLoop_min m _ hnot⟩

/-- C2 witness: a two-file cache (sizes 2 GB and 4 GB, limit 5 GB). -/
theorem clean_cache_c2_amended_witness :
    (0 : ℚ) ≤ 5 ∧ totalSize [⟨"a", 2, 0⟩, ⟨"b", 4, 1⟩] > 5 ∧
      totalSize (clean_cache [⟨"a", 2, 0⟩, ⟨"b", 4, 1⟩] 5) ≤ 4 / 5 * 5 :=
  ⟨by norm_num, by norm_num [totalSize],
    (clean_cache_c2_amended [⟨"a", 2, 0⟩, ⟨"b", 4, 1⟩] 5 (by norm_num)
      (by norm_num [totalSize])).1⟩

/-- C2 counterexample: with files of sizes 2 GB (older) and 4 GB and a
5 GB limit, the code removes both files (final cache empty), although
removing only the oldest file already brings the total to `4 = 0.8 * 5`,
i.e. to at most 80% of the limit — one more file than the claim allows. -/
theorem clean_cache_c2_counterexample :
    totalSize [⟨"a", 2, 0⟩, ⟨"b", 4, 1⟩] > 5 ∧
      clean_cache [⟨"a", 2, 0⟩, ⟨"b", 4, 1⟩] 5 = [] ∧
      totalSize ((sortByAtime [⟨"a", 2, 0⟩, ⟨"b", 4, 1⟩]).drop 1) ≤ 4 / 5 * 5 := by
  refine ⟨by norm_num [totalSize], ?_, ?_⟩
  · show clean_cache [⟨"a", 2, 0⟩, ⟨"b", 4, 1⟩] 5 = []
    unfold clean_cache sortByAtime evictLoop
    norm_num [totalSize, List.insertionSort, List.orderedInsert, atimeLE, evictLoop]
  · unfold sortByAtime
    norm_num [totalSize, List.insertionSort, List.orderedInsert, atimeLE]

namespace Lib

/-! Embedding of music_library.py.  The remote tree is a rose tree of
directories; tag reads (`TinyTag.get`, which may raise) are a partial map
from full file paths to tag records supplied by the environment; the two
SQLite tables become lists of rows, with `INSERT OR REPLACE` deleting the
row holding the unique key and inserting a fresh row.  The fresh rowid is
the one SQLite picks for an unspecified `INTEGER PRIMARY KEY`: one more
than the largest rowid in use, chosen *before* the REPLACE resolution
deletes the conflicting row, so a replaced row's id is never reused. -/

structure Tag where
  album : Option String
  albumartist : Option String
  artist : Option String
  year : Option String
  title : Option String
  track : Option Nat
  disc : Option Nat
  duration : Option ℚ

/-- Python `x or d` for an optional string: `None` and `""` are falsy. -/
def pyOrStr (v : Option String) (d : String) : String :=
  match v with
  | some s => if s = "" then d else s
  | none => d

/-- Python `x or d` for an optional integer: `None` and `0` are falsy. -/
def pyOrNat (v : Option Nat) (d : Nat) : Nat :=
  match v with
  | some n => if n = 0 then d else n
  | none => d

/-- Python `x or d` for an optional number: `None` and `0` are falsy. -/
def pyOrRat (v : Option ℚ) (d : ℚ) : ℚ :=
  match v with
  | some q => if q = 0 then d else q
  | none => d

/-- A remote directory: its name, the regular files directly inside it,
and its immediate subdirectories (which may nest arbitrarily deep). -/
inductive RDir where
  | mk (name : String) (files : List String) (subdirs : List RDir)

def RDir.name : RDir → String
  | .mk n _ _ => n

def RDir.files : RDir → List String
  | .mk _ f _ => f

def RDir.subdirs : RDir → List RDir
  | .mk _ _ s => s

structure ScanEnv where
  tags : String → Option Tag
  now : Nat

def SUPPORTED_FORMATS : List String :=
  [".flac", ".wav", ".alac", ".ape", ".aiff", ".dsd", ".dsf", ".dff", ".wv"]

def COVER_NAMES : List String :=
  ["cover.jpg", "folder.jpg", "album.jpg", "front.jpg", "artwork.jpg"]

/-- `os.path.join` for the relative paths the scanner builds. -/
def pathJoin (a b : String) : String := if a = "" then b else a ++ "/" ++ b

/-- `os.path.basename`: the characters after the last slash. -/
def basename (p : String) : String :=
  String.mk (p.toList.foldl (fun acc c => if c = '/' then [] else acc ++ [c]) [])

/-- `name.startswith('.')`. -/
def startsWithDot (s : String) : Bool :=
  match s.toList with
  | c :: _ => c == '.'
  | [] => false

/-- `os.path.splitext(f)[0]`: cut at the last dot that has a non-dot
character somewhere before it. -/
def stem (f : String) : String :=
  let cs := f.toList
  match ((List.range cs.length).filter
      (fun i => (cs.getD i ' ' == '.') && (cs.take i).any (fun c => c != '.'))).getLast? with
  | some i => String.mk (cs.take i)
  | none => f

/-- ASCII lower-casing, as Python's `re.IGNORECASE` and SQLite's default
`LIKE` apply it to ASCII patterns. -/
def lowerChar (c : Char) : Char :=
  if 'A' ≤ c ∧ c ≤ 'Z' then Char.ofNat (c.toNat + 32) else c

def lowerList (cs : List Char) : List Char := cs.map lowerChar

/-- The per-extension listings `list_files(dir, ".*\\.ext$")`, concatenated
in `SUPPORTED_FORMATS` order; the regex is compiled with `re.IGNORECASE`,
so the match is a case-insensitive ends-with test. -/
def music_files (d : RDir) : List String :=
  (SUPPORTED_FORMATS.map
    (fun ext => d.files.filter (fun f => ext.toList.isSuffixOf (lowerList f.toList)))).flatten

structure AlbumRow where
  id : Nat
  title : String
  artist : String
  year : String
  directory : String
  cover_art : Option String
  last_updated : Nat
deriving Repr, DecidableEq

structure TrackRow where
  id : Nat
  album_id : Nat
  title : String
  artist : String
  track_number : Nat
  disc_number : Nat
  duration : ℚ
  file_path : String
deriving Repr, DecidableEq

structure DB where
  albums : List AlbumRow
  tracks : List TrackRow
deriving Repr, DecidableEq

/-- SQLite's rowid for an inserted row: one more than the largest rowid
in use at the start of the insert (1 for an empty table). -/
def nextRowid (ids : List Nat) : Nat := ids.foldr max 0 + 1

/-- `INSERT OR REPLACE INTO albums ... VALUES (...)` keyed on the UNIQUE
`directory` column; returns the updated table and `cursor.lastrowid`.
The new rowid is allocated over the whole table, before the REPLACE
resolution deletes the conflicting row. -/
def upsertAlbum (db : DB) (title artist year directory : String) (cover : Option String)
    (now : Nat) : DB × Nat :=
  let newId := nextRowid (db.albums.map AlbumRow.id)
  let remaining := db.albums.filter (fun a => a.directory != directory)
  (⟨remaining ++ [⟨newId, title, artist, year, directory, cover, now⟩], db.tracks⟩, newId)

/-- `INSERT OR REPLACE INTO tracks ...` keyed on the UNIQUE `file_path`;
rowid allocated over the whole table, before the conflict deletion. -/
def upsertTrack (db : DB) (album_id : Nat) (title artist : String)
    (track_number disc_number : Nat) (duration : ℚ) (file_path : String) : DB :=
  let newId := nextRowid (db.tracks.map TrackRow.id)
  let remaining := db.tracks.filter (fun t => t.file_path != file_path)
  ⟨db.albums, remaining ++ [⟨newId, album_id, title, artist, track_number, disc_number, duration, file_path⟩]⟩

structure AlbumMeta where
  title : String
  artist : String
  year : String

/-- Album-level metadata from the first listed audio file, with the
source's fallbacks on a failed tag read. -/
def albumMeta (env : ScanEnv) (album_dir : String) (d : RDir) : AlbumMeta :=
  match music_files d with
  | [] => ⟨basename album_dir, "Unknown Artist", "Unknown Year"⟩
  | f :: _ =>
    match env.tags (pathJoin MOUNT_POINT (pathJoin album_dir f)) with
    | some t =>
      ⟨pyOrStr t.album (basename album_dir),
        pyOrStr t.albumartist (pyOrStr t.artist "Unknown Artist"),
        pyOrStr t.year "Unknown Year"⟩
    | none => ⟨basename album_dir, "Unknown Artist", "Unknown Year"⟩

structure TrackFields where
  title : String
  artist : String
  track_number : Nat
  disc_number : Nat
  duration : ℚ

/-- Per-track fields, with the source's per-field fallbacks; the `none`
branch is the `except` clause of the per-file tag read. -/
def trackFields (env : ScanEnv) (album_artist file_name full_path : String) : TrackFields :=
  match env.tags full_path with
  | some t =>
    ⟨pyOrStr t.title (stem file_name), pyOrStr t.artist album_artist,
      pyOrNat t.track 0, pyOrNat t.disc 1, pyOrRat t.duration 0⟩
  | none => ⟨stem file_name, album_artist, 0, 1, 0⟩

structure ProcOut where
  db : DB
  count : Nat
  log : List String

/-- One iteration of the per-track loop in `_process_album_directory`. -/
def trackStep (env : ScanEnv) (album_dir album_artist : String) (aid : Nat)
    (acc : DB × List String) (fn : String) : DB × List String :=
  let fp := pathJoin album_dir fn
  let full := pathJoin MOUNT_POINT fp
  let tf := trackFields env album_artist fn full
  let log2 := if (env.tags full).isNone
    then acc.2 ++ ["Error reading tags from " ++ full] else acc.2
  (upsertTrack acc.1 aid tf.title tf.artist tf.track_number tf.disc_number tf.duration fp, log2)

/-- The cover-art probe: the first conventional cover file name present in
the directory listing. -/
def albumCover (album_dir : String) (d : RDir) : Option String :=
  (COVER_NAMES.find? (fun c => d.files.contains c)).map (fun c => pathJoin album_dir c)

/-- The per-track loop of `_process_album_directory`. -/
def processTracks (env : ScanEnv) (album_dir art : String) (aid : Nat) (db : DB)
    (warn0 : List String) (fs : List String) : DB × List String :=
  fs.foldl (trackStep env album_dir art aid) (db, warn0)

/-- The warning emitted (or not) by the album-level tag read on the first
listed audio file. -/
def albumWarnOf (env : ScanEnv) (album_dir : String) (d : RDir) : List String :=
  if (env.tags (pathJoin MOUNT_POINT (pathJoin album_dir ((music_files d).headD "")))).isNone
  then ["Error reading tags from " ++
    pathJoin MOUNT_POINT (pathJoin album_dir ((music_files d).headD ""))]
  else []

/-- The album-row upsert performed by `_process_album_directory`. -/
def albumUpsertOf (env : ScanEnv) (album_dir : String) (d : RDir) (db : DB) : DB × Nat :=
  upsertAlbum db (albumMeta env album_dir d).title (albumMeta env album_dir d).artist
    (albumMeta env album_dir d).year album_dir (albumCover album_dir d) env.now

/-- The non-empty branch of `_process_album_directory`: upsert the album,
then fold the per-track loop over the audio files. -/
def processNonempty (env : ScanEnv) (album_dir : String) (d : RDir) (db : DB) :
    DB × List String :=
  processTracks env album_dir (albumMeta env album_dir d).artist
    (albumUpsertOf env album_dir d db).2 (albumUpsertOf env album_dir d db).1
    (albumWarnOf env album_dir d) (music_files d)

/-- `_process_album_directory(album_dir, cursor)`: returns the updated
tables, the 0/1 album count, and the warnings logged. -/
def process_album_directory (env : ScanEnv) (album_dir : String) (d : RDir) (db : DB) : ProcOut :=
  if (music_files d).isEmpty then ⟨db, 0, []⟩
  else ⟨(processNonempty env album_dir d db).1, 1, (processNonempty env album_dir d db).2⟩

/-- One iteration of the container branch: process an immediate
subdirectory as a candidate album directory. -/
def subdirStep (env : ScanEnv) (dname : String) (a : ProcOut) (s : RDir) : ProcOut :=
  let r := process_album_directory env (pathJoin dname s.name) s a.db
  ⟨r.db, a.count + r.count, a.log ++ r.log⟩

/-- The body of `scan_library`'s top-level loop: skip dot-prefixed names;
an audio-bearing directory is itself an album; otherwise its immediate
subdirectories are processed as candidate albums (one level only). -/
def scanStepTop (env : ScanEnv) (acc : ProcOut) (d : RDir) : ProcOut :=
  if startsWithDot d.name then acc
  else if (music_files d).isEmpty then
    d.subdirs.foldl (subdirStep env d.name) acc
  else
    let r := process_album_directory env d.name d acc.db
    ⟨r.db, acc.count + r.count, acc.log ++ r.log⟩

/-- `scan_library()` over the mounted tree. -/
def scan_library (env : ScanEnv) (tree : List RDir) (db : DB) : ProcOut :=
  tree.foldl (scanStepTop env) ⟨db, 0, []⟩

/-! Query side: `search_albums` and `get_album_by_id`. -/

/-- SQLite `LIKE` on character lists: `%` matches any sequence, `_` any
single character, anything else matches case-insensitively (ASCII). -/
def likeChars : List Char → List Char → Bool
  | [], s => s.isEmpty
  | p :: ps, s =>
    if p = '%' then (s.tails).any (fun t => likeChars ps t)
    else
      match s with
      | [] => false
      | c :: s2 =>
        if p = '_' then likeChars ps s2
        else (lowerChar p == lowerChar c) && likeChars ps s2

def sqlLike (pat s : String) : Bool := likeChars pat.toList s.toList

structure TrackOut where
  title : String
  artist : String
  track_number : Nat
  disc_number : Nat
  duration : ℚ
  file_path : String
deriving Repr, DecidableEq

structure AlbumOut where
  id : Nat
  title : String
  artist : String
  year : String
  directory : String
  cover_art : Option String
  tracks : List TrackOut
deriving Repr, DecidableEq

/-- Codepoint-wise lexicographic `≤` on character lists: SQLite's default
BINARY collation, which `ORDER BY title` uses. -/
def listLE : List Char → List Char → Bool
  | [], _ => true
  | _ :: _, [] => false
  | a :: as, b :: bs =>
    if a.toNat < b.toNat then true
    else if b.toNat < a.toNat then false
    else listLE as bs

theorem listLE_total : ∀ as bs : List Char, listLE as bs = true ∨ listLE bs as = true
  | [], _ => Or.inl rfl
  | _ :: _, [] => Or.inr rfl
  | a :: as, b :: bs => by
    by_cases h1 : a.toNat < b.toNat
    · left; simp [listLE, h1]
    · by_cases h2 : b.toNat < a.toNat
      · right; simp [listLE, h2]
      · rcases listLE_total as bs with ih | ih
        · left; simp [listLE, h1, h2, ih]
        · right; simp [listLE, h1, h2, ih]

theorem listLE_trans :
    ∀ as bs cs : List Char, listLE as bs = true → listLE bs cs = true → listLE as cs = true
  | [], _, _, _, _ => rfl
  | _ :: _, [], _, h1, _ => by simp [listLE] at h1
  | _ :: _, _ :: _, [], _, h2 => by simp [listLE] at h2
  | a :: as, b :: bs, c :: cs, h1, h2 => by
    simp only [listLE] at h1 h2 ⊢
    split_ifs at h1 h2 ⊢ <;>
      first
        | rfl
        | omega
        | exact listLE_trans as bs cs h1 h2
        | simp_all

def trackLEb (a b : TrackRow) : Bool :=
  if a.disc_number < b.disc_number then true
  else if b.disc_number < a.disc_number then false
  else if a.track_number < b.track_number then true
  else if b.track_number < a.track_number then false
  else listLE a.title.toList b.title.toList

/-- `ORDER BY disc_number, track_number, title`. -/
def trackLE (a b : TrackRow) : Prop := trackLEb a b = true

instance : DecidableRel trackLE := fun a b => inferInstanceAs (Decidable (trackLEb a b = true))

instance : IsTotal TrackRow trackLE := by
  constructor
  intro a b
  show trackLEb a b = true ∨ trackLEb b a = true
  unfold trackLEb
  rcases listLE_total a.title.toList b.title.toList with h | h <;>
    split_ifs <;> simp_all <;> omega

instance : IsTrans TrackRow trackLE := by
  constructor
  intro a b c h1 h2
  have h1b : trackLEb a b = true := h1
  have h2b : trackLEb b c = true := h2
  show trackLEb a c = true
  unfold trackLEb at h1b h2b ⊢
  split_ifs at h1b h2b ⊢ <;>
    first
      | rfl
      | omega
      | exact listLE_trans a.title.toList b.title.toList c.title.toList h1b h2b
      | simp_all

/-- `ORDER BY title`. -/
def albumTitleLE (a b : AlbumRow) : Prop := listLE a.title.toList b.title.toList = true

instance : DecidableRel albumTitleLE :=
  fun a b => inferInstanceAs (Decidable (listLE a.title.toList b.title.toList = true))

instance : IsTotal AlbumRow albumTitleLE :=
  ⟨fun a b => listLE_total a.title.toList b.title.toList⟩

instance : IsTrans AlbumRow albumTitleLE :=
  ⟨fun a b c => listLE_trans a.title.toList b.title.toList c.title.toList⟩

def toTrackOut (t : TrackRow) : TrackOut :=
  ⟨t.title, t.artist, t.track_number, t.disc_number, t.duration, t.file_path⟩

/-- The per-album track query of both `search_albums` and
`get_album_by_id`. -/
def tracks_for (db : DB) (aid : Nat) : List TrackOut :=
  (List.insertionSort trackLE (db.tracks.filter (fun t => t.album_id == aid))).map toTrackOut

def toAlbumOut (db : DB) (a : AlbumRow) : AlbumOut :=
  ⟨a.id, a.title, a.artist, a.year, a.directory, a.cover_art, tracks_for db a.id⟩

/-- `search_albums(query)`: `LIKE %query%` on title or artist, `ORDER BY
title`, `LIMIT 10`, each album carrying its ordered tracks. -/
def search_albums (db : DB) (query : String) : List AlbumOut :=
  ((List.insertionSort albumTitleLE
    (db.albums.filter (fun a => sqlLike ("%" ++ query ++ "%") a.title
      || sqlLike ("%" ++ query ++ "%") a.artist))).take 10).map (toAlbumOut db)

/-- `get_album_by_id(album_id)`. -/
def get_album_by_id (db : DB) (aid : Nat) : Option AlbumOut :=
  match db.albums.find? (fun a => a.id == aid) with
  | none => none
  | some a => some (toAlbumOut db a)

end Lib

def cacheHitEnv : Net.Env :=
  { cacheEnabled := true
    cacheExists := fun _ => true
    remoteExists := fun _ => false
    umountSucceeds := true
    mountSucceeds := false
    copySucceeds := fun _ => false }

/-- C5 witness: concrete cache hit, with the share unmounted. -/
theorem get_file_path_cache_hit_witness :
    cacheHitEnv.cacheEnabled = true ∧ cacheHitEnv.cacheExists "a/b.flac" = true ∧
      get_file_path cacheHitEnv ⟨false⟩ "a/b.flac" = ⟨some (cache_file "a/b.flac"), ⟨false⟩, []⟩ :=
  ⟨rfl, rfl, get_file_path_cache_hit cacheHitEnv ⟨false⟩ "a/b.flac" rfl rfl⟩

/-- C9: caching enabled, cache miss, mount ensured, remote file present:
the call returns the cache path when the copy succeeds and the mount-point
path when the copy fails — never a failure result. -/
theorem get_file_path_copy_fallback (env : Net.Env) (s : NetState) (p : String)
    (hc : env.cacheEnabled = true) (hn : env.cacheExists p = false)
    (hm : (ensure_mounted env s).val = true) (hr : env.remoteExists p = true) :
    (get_file_path env s p).val =
      some (if env.copySucceeds p then cache_file p else network_file p) := by
  unfold get_file_path
  rw [hc, hn, hr]
  simp only [Bool.false_eq_true, if_false, hm]
  cases h : env.copySucceeds p <;> simp [h]

def copyFailEnv : Net.Env :=
  { cacheEnabled := true
    cacheExists := fun _ => false
    remoteExists := fun _ => true
    umountSucceeds := true
    mountSucceeds := true
    copySucceeds := fun _ => false }

/-- C9 witness: concrete cache miss with a failing copy; the mount-point
path is returned. -/
theorem get_file_path_copy_fallback_witness :
    copyFailEnv.cacheEnabled = true ∧ copyFailEnv.cacheExists "c.flac" = false ∧
      (ensure_mounted copyFailEnv ⟨true⟩).val = true ∧ copyFailEnv.remoteExists "c.flac" = true ∧
      (get_file_path copyFailEnv ⟨true⟩ "c.flac").val = some (network_file "c.flac") :=
  ⟨rfl, rfl, rfl, rfl, by
    have h := get_file_path_copy_fallback copyFailEnv ⟨true⟩ "c.flac" rfl rfl rfl rfl
    simpa using h⟩

end PiPlayer

namespace PiPlayer.Lib

/-! Key-set lemmas: the album table is keyed by `directory`, the track
table by `file_path`; upserts insert the key and preserve distinctness. -/

def albumDirs (db : DB) : List String := db.albums.map AlbumRow.directory

def trackPathsOf (db : DB) : List String := db.tracks.map TrackRow.file_path

def dirSet (db : DB) : Finset String := (albumDirs db).toFinset

def pathSet (db : DB) : Finset String := (trackPathsOf db).toFinset

theorem map_filter_key {α β : Type} [DecidableEq β] (f : α → β) (l : List α) (d : β) :
    (l.filter (fun a => f a != d)).map f = (l.map f).filter (fun x => x != d) := by
  induction l with
  | nil => rfl
  | cons a l ih =>
    by_cases h : (f a != d) = true
    · simp [List.filter_cons, h, ih]
    · simp [List.filter_cons, h, ih]

theorem albumDirs_upsertAlbum (db : DB) (t a y d : String) (c : Option String) (n : Nat) :
    albumDirs (upsertAlbum db t a y d c n).1 =
      (albumDirs db).filter (fun x => x != d) ++ [d] := by
  unfold albumDirs upsertAlbum
  simp only [List.map_append, map_filter_key, List.map_cons, List.map_nil]

theorem tracks_upsertAlbum (db : DB) (t a y d : String) (c : Option String) (n : Nat) :
    (upsertAlbum db t a y d c n).1.tracks = db.tracks := rfl

theorem dirSet_upsertAlbum (db : DB) (t a y d : String) (c : Option String) (n : Nat) :
    dirSet (upsertAlbum db t a y d c n).1 = insert d (dirSet db) := by
  unfold dirSet
  rw [albumDirs_upsertAlbum]
  ext x
  simp only [List.toFinset_append, Finset.mem_union, List.mem_toFinset, List.mem_filter,
    bne_iff_ne, ne_eq, List.mem_singleton, Finset.mem_insert]
  by_cases hx : x = d
  · simp [hx]
  · simp [hx]

theorem nodup_albumDirs_upsertAlbum (db : DB) (t a y d : String) (c : Option String) (n : Nat)
    (h : (albumDirs db).Nodup) : (albumDirs (upsertAlbum db t a y d c n).1).Nodup := by
  rw [albumDirs_upsertAlbum]
  refine List.Nodup.append (h.filter _) (List.nodup_singleton d) ?_
  intro x hx hxd
  rw [List.mem_singleton] at hxd
  subst hxd
  have hp := List.of_mem_filter hx
  simp at hp

theorem trackPathsOf_upsertTrack (db : DB) (aid : Nat) (t a : String) (tn dn : Nat) (du : ℚ)
    (fp : String) :
    trackPathsOf (upsertTrack db aid t a tn dn du fp) =
      (trackPathsOf db).filter (fun x => x != fp) ++ [fp] := by
  unfold trackPathsOf upsertTrack
  simp only [List.map_append, map_filter_key, List.map_cons, List.map_nil]

theorem albums_upsertTrack (db : DB) (aid : Nat) (t a : String) (tn dn : Nat) (du : ℚ)
    (fp : String) : (upsertTrack db aid t a tn dn du fp).albums = db.albums := rfl

theorem pathSet_upsertTrack (db : DB) (aid : Nat) (t a : String) (tn dn : Nat) (du : ℚ)
    (fp : String) :
    pathSet (upsertTrack db aid t a tn dn du fp) = insert fp (pathSet db) := by
  unfold pathSet
  rw [trackPathsOf_upsertTrack]
  ext x
  simp only [List.toFinset_append, Finset.mem_union, List.mem_toFinset, List.mem_filter,
    bne_iff_ne, ne_eq, List.mem_singleton, Finset.mem_insert]
  by_cases hx : x = fp
  · simp [hx]
  · simp [hx]

theorem nodup_trackPathsOf_upsertTrack (db : DB) (aid : Nat) (t a : String) (tn dn : Nat)
    (du : ℚ) (fp : String) (h : (trackPathsOf db).Nodup) :
    (trackPathsOf (upsertTrack db aid t a tn dn du fp)).Nodup := by
  rw [trackPathsOf_upsertTrack]
  refine List.Nodup.append (h.filter _) (List.nodup_singleton fp) ?_
  intro x hx hxd
  rw [List.mem_singleton] at hxd
  subst hxd
  have hp := List.of_mem_filter hx
  simp at hp

/-! The per-track fold. -/

theorem albums_trackStep (env : ScanEnv) (p art : String) (aid : Nat)
    (acc : DB × List String) (fn : String) :
    (trackStep env p art aid acc fn).1.albums = acc.1.albums := rfl

theorem pathSet_trackStep (env : ScanEnv) (p art : String) (aid : Nat)
    (acc : DB × List String) (fn : String) :
    pathSet (trackStep env p art aid acc fn).1 = insert (pathJoin p fn) (pathSet acc.1) :=
  pathSet_upsertTrack _ _ _ _ _ _ _ _

theorem albums_processTracks (env : ScanEnv) (p art : String) (aid : Nat) :
    ∀ (fs : List String) (db : DB) (w : List String),
      (processTracks env p art aid db w fs).1.albums = db.albums
  | [], _, _ => rfl
  | f :: fs, db, w => by
    show (processTracks env p art aid _ _ fs).1.albums = db.albums
    rw [albums_processTracks env p art aid fs]
    rfl

theorem pathSet_processTracks (env : ScanEnv) (p art : String) (aid : Nat) :
    ∀ (fs : List String) (db : DB) (w : List String),
      pathSet (processTracks env p art aid db w fs).1 =
        pathSet db ∪ (fs.map (fun fn => pathJoin p fn)).toFinset
  | [], db, w => by simp [processTracks]
  | f :: fs, db, w => by
    show pathSet (processTracks env p art aid _ _ fs).1 = _
    rw [pathSet_processTracks env p art aid fs]
    rw [pathSet_upsertTrack]
    ext x
    simp only [Finset.mem_union, Finset.mem_insert, List.mem_toFinset, List.map_cons,
      List.toFinset_cons, List.mem_map]
    tauto

theorem nodup_processTracks (env : ScanEnv) (p art : String) (aid : Nat) :
    ∀ (fs : List String) (db : DB) (w : List String), (trackPathsOf db).Nodup →
      (trackPathsOf (processTracks env p art aid db w fs).1).Nodup
  | [], _, _, h => h
  | f :: fs, db, w, h => by
    show (trackPathsOf (processTracks env p art aid _ _ fs).1).Nodup
    exact nodup_processTracks env p art aid fs _ _
      (nodup_trackPathsOf_upsertTrack _ _ _ _ _ _ _ _ h)

/-! Key sets through album processing and the scan folds. -/

def dirAlbumKeys (p : String) (d : RDir) : List String :=
  if (music_files d).isEmpty then [] else [p]

def dirTrackKeys (p : String) (d : RDir) : List String :=
  (music_files d).map (fun fn => pathJoin p fn)

def topAlbumKeys (d : RDir) : List String :=
  if startsWithDot d.name then []
  else if (music_files d).isEmpty then
    (d.subdirs.map (fun s => dirAlbumKeys (pathJoin d.name s.name) s)).flatten
  else dirAlbumKeys d.name d

def topTrackKeys (d : RDir) : List String :=
  if startsWithDot d.name then []
  else if (music_files d).isEmpty then
    (d.subdirs.map (fun s => dirTrackKeys (pathJoin d.name s.name) s)).flatten
  else dirTrackKeys d.name d

def treeAlbumKeys (tree : List RDir) : List String := (tree.map topAlbumKeys).flatten

def treeTrackKeys (tree : List RDir) : List String := (tree.map topTrackKeys).flatten

theorem albumDirs_congr {db1 db2 : DB} (h : db1.albums = db2.albums) :
    albumDirs db1 = albumDirs db2 := by
  unfold albumDirs
  rw [h]

theorem trackPathsOf_congr {db1 db2 : DB} (h : db1.tracks = db2.tracks) :
    trackPathsOf db1 = trackPathsOf db2 := by
  unfold trackPathsOf
  rw [h]

theorem dirSet_processNonempty (env : ScanEnv) (p : String) (d : RDir) (db : DB) :
    dirSet (processNonempty env p d db).1 = insert p (dirSet db) := by
  unfold dirSet processNonempty
  rw [albumDirs_congr (albums_processTracks _ _ _ _ (music_files d)
    (albumUpsertOf env p d db).1 (albumWarnOf env p d))]
  show (albumDirs (albumUpsertOf env p d db).1).toFinset = _
  unfold albumUpsertOf
  exact dirSet_upsertAlbum _ _ _ _ _ _ _

theorem nodup_albumDirs_processNonempty (env : ScanEnv) (p : String) (d : RDir) (db : DB)
    (h : (albumDirs db).Nodup) : (albumDirs (processNonempty env p d db).1).Nodup := by
  unfold processNonempty
  rw [albumDirs_congr (albums_processTracks _ _ _ _ (music_files d)
    (albumUpsertOf env p d db).1 (albumWarnOf env p d))]
  show (albumDirs (albumUpsertOf env p d db).1).Nodup
  unfold albumUpsertOf
  exact nodup_albumDirs_upsertAlbum _ _ _ _ _ _ _ h

theorem pathSet_processNonempty (env : ScanEnv) (p : String) (d : RDir) (db : DB) :
    pathSet (processNonempty env p d db).1 = pathSet db ∪ (dirTrackKeys p d).toFinset := by
  unfold processNonempty dirTrackKeys
  rw [pathSet_processTracks]
  have e : pathSet (albumUpsertOf env p d db).1 = pathSet db := by
    unfold pathSet albumUpsertOf
    rw [trackPathsOf_congr (tracks_upsertAlbum db _ _ _ _ _ _)]
  rw [e]

theorem nodup_trackPathsOf_processNonempty (env : ScanEnv) (p : String) (d : RDir) (db : DB)
    (h : (trackPathsOf db).Nodup) : (trackPathsOf (processNonempty env p d db).1).Nodup := by
  unfold processNonempty albumUpsertOf
  refine nodup_processTracks _ _ _ _ _ _ _ ?_
  rw [trackPathsOf_congr (tracks_upsertAlbum db _ _ _ _ _ _)]
  exact h

theorem dirSet_process (env : ScanEnv) (p : String) (d : RDir) (db : DB) :
    dirSet (process_album_directory env p d db).db =
      dirSet db ∪ (dirAlbumKeys p d).toFinset := by
  unfold process_album_directory dirAlbumKeys
  cases h : (music_files d).isEmpty
  · simp only [Bool.false_eq_true, if_false]
    show dirSet (processNonempty env p d db).1 = _
    rw [dirSet_processNonempty]
    ext x
    simp only [Finset.mem_insert, Finset.mem_union, List.mem_toFinset, List.mem_singleton]
    tauto
  · simp

theorem pathSet_process (env : ScanEnv) (p : String) (d : RDir) (db : DB) :
    pathSet (process_album_directory env p d db).db =
      pathSet db ∪ (dirTrackKeys p d).toFinset := by
  unfold process_album_directory
  cases h : (music_files d).isEmpty
  · simp only [Bool.false_eq_true, if_false]
    show pathSet (processNonempty env p d db).1 = _
    exact pathSet_processNonempty env p d db
  · have hnil : music_files d = [] := List.isEmpty_iff.mp h
    simp [dirTrackKeys, hnil]

theorem nodup_albumDirs_process (env : ScanEnv) (p : String) (d : RDir) (db : DB)
    (h : (albumDirs db).Nodup) :
    (albumDirs (process_album_directory env p d db).db).Nodup := by
  unfold process_album_directory
  cases hm : (music_files d).isEmpty
  · simp only [Bool.false_eq_true, if_false]
    exact nodup_albumDirs_processNonempty env p d db h
  · simpa using h

theorem nodup_trackPathsOf_process (env : ScanEnv) (p : String) (d : RDir) (db : DB)
    (h : (trackPathsOf db).Nodup) :
    (trackPathsOf (process_album_directory env p d db).db).Nodup := by
  unfold process_album_directory
  cases hm : (music_files d).isEmpty
  · simp only [Bool.false_eq_true, if_false]
    exact nodup_trackPathsOf_processNonempty env p d db h
  · simpa using h

theorem db_subdirStep (env : ScanEnv) (dn : String) (a : ProcOut) (s : RDir) :
    (subdirStep env dn a s).db = (process_album_directory env (pathJoin dn s.name) s a.db).db :=
  rfl

theorem dirSet_subdirFold (env : ScanEnv) (dn : String) :
    ∀ (ss : List RDir) (acc : ProcOut),
      dirSet ((ss.foldl (subdirStep env dn) acc)).db =
        dirSet acc.db ∪
          ((ss.map (fun s => dirAlbumKeys (pathJoin dn s.name) s)).flatten).toFinset
  | [], acc => by simp
  | s :: ss, acc => by
    rw [List.foldl_cons, dirSet_subdirFold env dn ss, db_subdirStep, dirSet_process]
    ext x
    simp only [Finset.mem_union, List.mem_toFinset, List.map_cons, List.flatten_cons,
      List.mem_append]
    tauto

theorem pathSet_subdirFold (env : ScanEnv) (dn : String) :
    ∀ (ss : List RDir) (acc : ProcOut),
      pathSet ((ss.foldl (subdirStep env dn) acc)).db =
        pathSet acc.db ∪
          ((ss.map (fun s => dirTrackKeys (pathJoin dn s.name) s)).flatten).toFinset
  | [], acc => by simp
  | s :: ss, acc => by
    rw [List.foldl_cons, pathSet_subdirFold env dn ss, db_subdirStep, pathSet_process]
    ext x
    simp only [Finset.mem_union, List.mem_toFinset, List.map_cons, List.flatten_cons,
      List.mem_append]
    tauto

theorem nodup_albumDirs_subdirFold (env : ScanEnv) (dn : String) :
    ∀ (ss : List RDir) (acc : ProcOut), (albumDirs acc.db).Nodup →
      (albumDirs ((ss.foldl (subdirStep env dn) acc)).db).Nodup
  | [], _, h => h
  | s :: ss, acc, h => by
    rw [List.foldl_cons]
    refine nodup_albumDirs_subdirFold env dn ss _ ?_
    rw [albumDirs_congr (congrArg DB.albums (db_subdirStep env dn acc s))]
    exact nodup_albumDirs_process env _ s acc.db h

theorem nodup_trackPathsOf_subdirFold (env : ScanEnv) (dn : String) :
    ∀ (ss : List RDir) (acc : ProcOut), (trackPathsOf acc.db).Nodup →
      (trackPathsOf ((ss.foldl (subdirStep env dn) acc)).db).Nodup
  | [], _, h => h
  | s :: ss, acc, h => by
    rw [List.foldl_cons]
    refine nodup_trackPathsOf_subdirFold env dn ss _ ?_
    rw [trackPathsOf_congr (congrArg DB.tracks (db_subdirStep env dn acc s))]
    exact nodup_trackPathsOf_process env _ s acc.db h

theorem dirSet_scanStepTop (env : ScanEnv) (acc : ProcOut) (d : RDir) :
    dirSet (scanStepTop env acc d).db = dirSet acc.db ∪ (topAlbumKeys d).toFinset := by
  unfold scanStepTop topAlbumKeys
  cases h1 : startsWithDot d.name
  · cases h2 : (music_files d).isEmpty
    · simp only [Bool.false_eq_true, if_false]
      show dirSet (process_album_directory env d.name d acc.db).db = _
      rw [dirSet_process]
    · simp only [if_true]
      exact dirSet_subdirFold env d.name d.subdirs acc
  · simp

theorem pathSet_scanStepTop (env : ScanEnv) (acc : ProcOut) (d : RDir) :
    pathSet (scanStepTop env acc d).db = pathSet acc.db ∪ (topTrackKeys d).toFinset := by
  unfold scanStepTop topTrackKeys
  cases h1 : startsWithDot d.name
  · cases h2 : (music_files d).isEmpty
    · simp only [Bool.false_eq_true, if_false]
      show pathSet (process_album_directory env d.name d acc.db).db = _
      rw [pathSet_process]
    · simp only [if_true]
      exact pathSet_subdirFold env d.name d.subdirs acc
  · simp

theorem nodup_albumDirs_scanStepTop (env : ScanEnv) (acc : ProcOut) (d : RDir)
    (h : (albumDirs acc.db).Nodup) : (albumDirs (scanStepTop env acc d).db).Nodup := by
  unfold scanStepTop
  cases h1 : startsWithDot d.name
  · cases h2 : (music_files d).isEmpty
    · simp only [Bool.false_eq_true, if_false]
      exact nodup_albumDirs_process env d.name d acc.db h
    · simp only [if_true]
      exact nodup_albumDirs_subdirFold env d.name d.subdirs acc h
  · simpa using h

theorem nodup_trackPathsOf_scanStepTop (env : ScanEnv) (acc : ProcOut) (d : RDir)
    (h : (trackPathsOf acc.db).Nodup) : (trackPathsOf (scanStepTop env acc d).db).Nodup := by
  unfold scanStepTop
  cases h1 : startsWithDot d.name
  · cases h2 : (music_files d).isEmpty
    · simp only [Bool.false_eq_true, if_false]
      exact nodup_trackPathsOf_process env d.name d acc.db h
    · simp only [if_true]
      exact nodup_trackPathsOf_subdirFold env d.name d.subdirs acc h
  · simpa using h

theorem dirSet_scanFold (env : ScanEnv) :
    ∀ (tree : List RDir) (acc : ProcOut),
      dirSet ((tree.foldl (scanStepTop env) acc)).db =
        dirSet acc.db ∪ (treeAlbumKeys tree).toFinset
  | [], acc => by simp [treeAlbumKeys]
  | d :: tree, acc => by
    rw [List.foldl_cons, dirSet_scanFold env tree, dirSet_scanStepTop]
    ext x
    simp only [Finset.mem_union, List.mem_toFinset, treeAlbumKeys, List.map_cons,
      List.flatten_cons, List.mem_append]
    tauto

theorem pathSet_scanFold (env : ScanEnv) :
    ∀ (tree : List RDir) (acc : ProcOut),
      pathSet ((tree.foldl (scanStepTop env) acc)).db =
        pathSet acc.db ∪ (treeTrackKeys tree).toFinset
  | [], acc => by simp [treeTrackKeys]
  | d :: tree, acc => by
    rw [List.foldl_cons, pathSet_scanFold env tree, pathSet_scanStepTop]
    ext x
    simp only [Finset.mem_union, List.mem_toFinset, treeTrackKeys, List.map_cons,
      List.flatten_cons, List.mem_append]
    tauto

theorem nodup_albumDirs_scanFold (env : ScanEnv) :
    ∀ (tree : List RDir) (acc : ProcOut), (albumDirs acc.db).Nodup →
      (albumDirs ((tree.foldl (scanStepTop env) acc)).db).Nodup
  | [], _, h => h
  | d :: tree, acc, h => by
    rw [List.foldl_cons]
    exact nodup_albumDirs_scanFold env tree _ (nodup_albumDirs_scanStepTop env acc d h)

theorem nodup_trackPathsOf_scanFold (env : ScanEnv) :
    ∀ (tree : List RDir) (acc : ProcOut), (trackPathsOf acc.db).Nodup →
      (trackPathsOf ((tree.foldl (scanStepTop env) acc)).db).Nodup
  | [], _, h => h
  | d :: tree, acc, h => by
    rw [List.foldl_cons]
    exact nodup_trackPathsOf_scanFold env tree _ (nodup_trackPathsOf_scanStepTop env acc d h)

theorem dirSet_scan_library (env : ScanEnv) (tree : List RDir) (db : DB) :
    dirSet (scan_library env tree db).db = dirSet db ∪ (treeAlbumKeys tree).toFinset :=
  dirSet_scanFold env tree ⟨db, 0, []⟩

theorem pathSet_scan_library (env : ScanEnv) (tree : List RDir) (db : DB) :
    pathSet (scan_library env tree db).db = pathSet db ∪ (treeTrackKeys tree).toFinset :=
  pathSet_scanFold env tree ⟨db, 0, []⟩

theorem nodup_albumDirs_scan_library (env : ScanEnv) (tree : List RDir) (db : DB)
    (h : (albumDirs db).Nodup) : (albumDirs (scan_library env tree db).db).Nodup :=
  nodup_albumDirs_scanFold env tree ⟨db, 0, []⟩ h

theorem nodup_trackPathsOf_scan_library (env : ScanEnv) (tree : List RDir) (db : DB)
    (h : (trackPathsOf db).Nodup) : (trackPathsOf (scan_library env tree db).db).Nodup :=
  nodup_trackPathsOf_scanFold env tree ⟨db, 0, []⟩ h

theorem length_albums_eq_card (db : DB) (h : (albumDirs db).Nodup) :
    db.albums.length = (dirSet db).card := by
  unfold dirSet
  rw [List.toFinset_card_of_nodup h]
  unfold albumDirs
  rw [List.length_map]

theorem length_tracks_eq_card (db : DB) (h : (trackPathsOf db).Nodup) :
    db.tracks.length = (pathSet db).card := by
  unfold pathSet
  rw [List.toFinset_card_of_nodup h]
  unfold trackPathsOf
  rw [List.length_map]

/-! Album counts (the `albums_found` accumulator). -/

theorem count_process (env : ScanEnv) (p : String) (d : RDir) (db : DB) :
    (process_album_directory env p d db).count =
      if (music_files d).isEmpty then 0 else 1 := by
  unfold process_album_directory
  cases h : (music_files d).isEmpty <;> simp [h]

theorem count_subdirFold (env : ScanEnv) (dn : String) :
    ∀ (ss : List RDir) (acc : ProcOut),
      ((ss.foldl (subdirStep env dn) acc)).count =
        acc.count + ss.countP (fun s => !(music_files s).isEmpty)
  | [], acc => by simp
  | s :: ss, acc => by
    rw [List.foldl_cons, count_subdirFold env dn ss]
    have e : (subdirStep env dn acc s).count =
        acc.count + (if (music_files s).isEmpty then 0 else 1) := by
      show acc.count + (process_album_directory env (pathJoin dn s.name) s acc.db).count = _
      rw [count_process]
    rw [e, List.countP_cons]
    cases h : (music_files s).isEmpty <;> simp [h] <;> omega

/-! Album-row existence by directory key. -/

def hasAlbumDir (db : DB) (p : String) : Prop := ∃ a ∈ db.albums, a.directory = p

theorem hasAlbumDir_upsertAlbum (db : DB) (t a y d : String) (c : Option String) (n : Nat)
    (q : String) (h : hasAlbumDir db q) : hasAlbumDir (upsertAlbum db t a y d c n).1 q := by
  by_cases hq : q = d
  · subst hq
    exact ⟨_, List.mem_append_right _ (List.mem_singleton_self _), rfl⟩
  · obtain ⟨r, hr, hrd⟩ := h
    refine ⟨r, List.mem_append_left _ ?_, hrd⟩
    refine List.mem_filter.mpr ⟨hr, ?_⟩
    rw [hrd]
    simpa using hq

theorem hasAlbumDir_upsertAlbum_self (db : DB) (t a y d : String) (c : Option String)
    (n : Nat) : hasAlbumDir (upsertAlbum db t a y d c n).1 d :=
  ⟨_, List.mem_append_right _ (List.mem_singleton_self _), rfl⟩

theorem hasAlbumDir_congr {db1 db2 : DB} (h : db1.albums = db2.albums) (q : String) :
    hasAlbumDir db1 q ↔ hasAlbumDir db2 q := by
  unfold hasAlbumDir
  rw [h]

theorem hasAlbumDir_processNonempty_self (env : ScanEnv) (p : String) (d : RDir) (db : DB) :
    hasAlbumDir (processNonempty env p d db).1 p := by
  unfold processNonempty
  rw [hasAlbumDir_congr (albums_processTracks _ _ _ _ (music_files d)
    (albumUpsertOf env p d db).1 (albumWarnOf env p d)) p]
  exact hasAlbumDir_upsertAlbum_self _ _ _ _ _ _ _

theorem hasAlbumDir_processNonempty (env : ScanEnv) (p : String) (d : RDir) (db : DB)
    (q : String) (h : hasAlbumDir db q) : hasAlbumDir (processNonempty env p d db).1 q := by
  unfold processNonempty
  rw [hasAlbumDir_congr (albums_processTracks _ _ _ _ (music_files d)
    (albumUpsertOf env p d db).1 (albumWarnOf env p d)) q]
  exact hasAlbumDir_upsertAlbum _ _ _ _ _ _ _ _ h

theorem hasAlbumDir_process_self (env : ScanEnv) (p : String) (d : RDir) (db : DB)
    (h : (music_files d).isEmpty = false) :
    hasAlbumDir (process_album_directory env p d db).db p := by
  unfold process_album_directory
  rw [h]
  simpa using hasAlbumDir_processNonempty_self env p d db

theorem hasAlbumDir_process (env : ScanEnv) (p : String) (d : RDir) (db : DB) (q : String)
    (h : hasAlbumDir db q) : hasAlbumDir (process_album_directory env p d db).db q := by
  unfold process_album_directory
  cases hm : (music_files d).isEmpty
  · simpa using hasAlbumDir_processNonempty env p d db q h
  · simpa using h

theorem hasAlbumDir_subdirFold (env : ScanEnv) (dn : String) :
    ∀ (ss : List RDir) (acc : ProcOut) (q : String), hasAlbumDir acc.db q →
      hasAlbumDir ((ss.foldl (subdirStep env dn) acc)).db q
  | [], _, _, h => h
  | s :: ss, acc, q, h => by
    rw [List.foldl_cons]
    refine hasAlbumDir_subdirFold env dn ss _ q ?_
    rw [hasAlbumDir_congr (congrArg DB.albums (db_subdirStep env dn acc s)) q]
    exact hasAlbumDir_process env _ s acc.db q h

theorem hasAlbumDir_subdirFold_mem (env : ScanEnv) (dn : String) :
    ∀ (ss : List RDir) (acc : ProcOut) (s : RDir), s ∈ ss →
      (music_files s).isEmpty = false →
      hasAlbumDir ((ss.foldl (subdirStep env dn) acc)).db (pathJoin dn s.name)
  | [], _, _, hs, _ => absurd hs (List.not_mem_nil _)
  | s0 :: ss, acc, s, hs, hm => by
    rw [List.foldl_cons]
    rcases List.mem_cons.mp hs with rfl | hs2
    · refine hasAlbumDir_subdirFold env dn ss _ _ ?_
      rw [hasAlbumDir_congr (congrArg DB.albums (db_subdirStep env dn acc s)) _]
      exact hasAlbumDir_process_self env _ s acc.db hm
    · exact hasAlbumDir_subdirFold_mem env dn ss _ s hs2 hm

/-! Track rows written by the per-track loop (C8 support). -/

theorem pathJoin_right_inj {p a b : String} (h : pathJoin p a = pathJoin p b) : a = b := by
  unfold pathJoin at h
  by_cases hp : p = ""
  · simpa [hp] using h
  · rw [if_neg hp, if_neg hp] at h
    have h2 : (p ++ "/" ++ a).data = (p ++ "/" ++ b).data := congrArg String.data h
    simp only [String.data_append, List.append_assoc] at h2
    have h3 := List.append_cancel_left (List.append_cancel_left h2)
    exact String.toList_inj.mp h3

/-- The canonical field values the loop writes for file `fn` of album
directory `p`. -/
def trackFieldsFor (env : ScanEnv) (p art fn : String) : TrackFields :=
  trackFields env art fn (pathJoin MOUNT_POINT (pathJoin p fn))

def hasTrackRow (db : DB) (fp : String) (tf : TrackFields) : Prop :=
  ∃ t ∈ db.tracks, t.file_path = fp ∧ t.title = tf.title ∧ t.artist = tf.artist ∧
    t.track_number = tf.track_number ∧ t.disc_number = tf.disc_number ∧ t.duration = tf.duration

theorem hasTrackRow_upsertTrack_self (db : DB) (aid : Nat) (tf : TrackFields) (fp : String) :
    hasTrackRow (upsertTrack db aid tf.title tf.artist tf.track_number tf.disc_number
      tf.duration fp) fp tf :=
  ⟨_, List.mem_append_right _ (List.mem_singleton_self _), rfl, rfl, rfl, rfl, rfl, rfl⟩

theorem hasTrackRow_upsertTrack_ne (db : DB) (aid : Nat) (t2 a2 : String) (tn dn : Nat)
    (du : ℚ) (fp2 fp : String) (tf : TrackFields) (hne : fp2 ≠ fp)
    (h : hasTrackRow db fp tf) :
    hasTrackRow (upsertTrack db aid t2 a2 tn dn du fp2) fp tf := by
  obtain ⟨t, ht, h1, h2, h3, h4, h5, h6⟩ := h
  refine ⟨t, List.mem_append_left _ ?_, h1, h2, h3, h4, h5, h6⟩
  refine List.mem_filter.mpr ⟨ht, ?_⟩
  rw [h1]
  simpa using fun he => hne he.symm

theorem hasTrackRow_trackStep_self (env : ScanEnv) (p art : String) (aid : Nat)
    (acc : DB × List String) (fn : String) :
    hasTrackRow (trackStep env p art aid acc fn).1 (pathJoin p fn)
      (trackFieldsFor env p art fn) :=
  hasTrackRow_upsertTrack_self acc.1 aid (trackFieldsFor env p art fn) (pathJoin p fn)

theorem hasTrackRow_trackStep_pres (env : ScanEnv) (p art : String) (aid : Nat)
    (acc : DB × List String) (g fn : String)
    (h : hasTrackRow acc.1 (pathJoin p fn) (trackFieldsFor env p art fn)) :
    hasTrackRow (trackStep env p art aid acc g).1 (pathJoin p fn)
      (trackFieldsFor env p art fn) := by
  by_cases hg : g = fn
  · subst hg
    exact hasTrackRow_trackStep_self env p art aid acc g
  · exact hasTrackRow_upsertTrack_ne _ _ _ _ _ _ _ _ _ _
      (fun he => hg (pathJoin_right_inj he)) h

theorem hasTrackRow_processTracks (env : ScanEnv) (p art : String) (aid : Nat) :
    ∀ (fs : List String) (db : DB) (w : List String) (fn : String),
      (fn ∈ fs ∨ hasTrackRow db (pathJoin p fn) (trackFieldsFor env p art fn)) →
      hasTrackRow (processTracks env p art aid db w fs).1 (pathJoin p fn)
        (trackFieldsFor env p art fn)
  | [], db, w, fn, h => h.resolve_left (List.not_mem_nil fn)
  | g :: fs, db, w, fn, h => by
    show hasTrackRow (processTracks env p art aid (trackStep env p art aid (db, w) g).1
      (trackStep env p art aid (db, w) g).2 fs).1 _ _
    rcases h with hmem | hrow
    · rcases List.mem_cons.mp hmem with rfl | hfs
      · exact hasTrackRow_processTracks env p art aid fs _ _ fn
          (Or.inr (hasTrackRow_trackStep_self env p art aid (db, w) fn))
      · exact hasTrackRow_processTracks env p art aid fs _ _ fn (Or.inl hfs)
    · exact hasTrackRow_processTracks env p art aid fs _ _ fn
        (Or.inr (hasTrackRow_trackStep_pres env p art aid (db, w) g fn hrow))

/-! Warning-log membership through the per-track loop. -/

theorem log_trackStep_mono (env : ScanEnv) (p art : String) (aid : Nat)
    (acc : DB × List String) (g msg : String) (h : msg ∈ acc.2) :
    msg ∈ (trackStep env p art aid acc g).2 := by
  unfold trackStep
  by_cases hg : (env.tags (pathJoin MOUNT_POINT (pathJoin p g))).isNone = true
  · simp only [hg, if_true]
    exact List.mem_append_left _ h
  · simpa [hg] using h

theorem log_trackStep_self (env : ScanEnv) (p art : String) (aid : Nat)
    (acc : DB × List String) (fn : String)
    (ht : env.tags (pathJoin MOUNT_POINT (pathJoin p fn)) = none) :
    ("Error reading tags from " ++ pathJoin MOUNT_POINT (pathJoin p fn))
      ∈ (trackStep env p art aid acc fn).2 := by
  unfold trackStep
  have hg : (env.tags (pathJoin MOUNT_POINT (pathJoin p fn))).isNone = true := by
    rw [ht]; rfl
  simp only [hg, if_true]
  exact List.mem_append_right _ (List.mem_singleton_self _)

theorem log_processTracks (env : ScanEnv) (p art : String) (aid : Nat) :
    ∀ (fs : List String) (db : DB) (w : List String) (fn : String),
      env.tags (pathJoin MOUNT_POINT (pathJoin p fn)) = none →
      (fn ∈ fs ∨ ("Error reading tags from " ++ pathJoin MOUNT_POINT (pathJoin p fn)) ∈ w) →
      ("Error reading tags from " ++ pathJoin MOUNT_POINT (pathJoin p fn))
        ∈ (processTracks env p art aid db w fs).2
  | [], db, w, fn, ht, h => h.resolve_left (List.not_mem_nil fn)
  | g :: fs, db, w, fn, ht, h => by
    show _ ∈ (processTracks env p art aid (trackStep env p art aid (db, w) g).1
      (trackStep env p art aid (db, w) g).2 fs).2
    rcases h with hmem | hw
    · rcases List.mem_cons.mp hmem with rfl | hfs
      · exact log_processTracks env p art aid fs _ _ fn ht
          (Or.inr (log_trackStep_self env p art aid (db, w) fn ht))
      · exact log_processTracks env p art aid fs _ _ fn ht (Or.inl hfs)
    · exact log_processTracks env p art aid fs _ _ fn ht
        (Or.inr (log_trackStep_mono env p art aid (db, w) g _ hw))

/-! Rowid arithmetic (C4 support). -/

theorem le_foldr_max (x : Nat) : ∀ l : List Nat, x ∈ l → x ≤ l.foldr max 0
  | [], h => absurd h (List.not_mem_nil x)
  | y :: l, h => by
    rcases List.mem_cons.mp h with rfl | h2
    · exact le_max_left _ _
    · exact le_trans (le_foldr_max x l h2) (le_max_right _ _)

theorem albums_process_nonempty_eq (env : ScanEnv) (p : String) (d : RDir) (db : DB)
    (hmf : (music_files d).isEmpty = false) :
    (process_album_directory env p d db).db.albums =
      db.albums.filter (fun r => r.directory != p) ++
        [⟨nextRowid (db.albums.map AlbumRow.id),
          (albumMeta env p d).title, (albumMeta env p d).artist, (albumMeta env p d).year,
          p, albumCover p d, env.now⟩] := by
  unfold process_album_directory
  rw [hmf]
  simp only [Bool.false_eq_true, if_false]
  show (processNonempty env p d db).1.albums = _
  unfold processNonempty
  rw [albums_processTracks]
  rfl

/-! SQLite LIKE versus plain case-insensitive substring search (C6). -/

/-- Modelled from the spec: "case-insensitive substring match against
title or artist".  The query, ASCII-lowercased, occurs as a contiguous
sublist of the lowercased text. -/
def ciSubstring (q s : String) : Prop := lowerList q.toList <:+: lowerList s.toList

instance (q s : String) : Decidable (ciSubstring q s) :=
  List.decidableInfix (lowerList q.toList) (lowerList s.toList)

theorem likeChars_pct_iff (r s : List Char) :
    likeChars ('%' :: r) s = true ↔ ∃ t, t <:+ s ∧ likeChars r t = true := by
  show ((s.tails).any (likeChars r) = true) ↔ _
  rw [List.any_eq_true]
  constructor
  · rintro ⟨t, ht, hl⟩
    exact ⟨t, (List.mem_tails t s).mp ht, hl⟩
  · rintro ⟨t, ht, hl⟩
    exact ⟨t, (List.mem_tails t s).mpr ht, hl⟩

theorem likeChars_plain_pct (cs : List Char) (hcs : ∀ c ∈ cs, c ≠ '%' ∧ c ≠ '_') :
    ∀ s : List Char, likeChars (cs ++ ['%']) s = true ↔ lowerList cs <+: lowerList s := by
  induction cs with
  | nil =>
    intro s
    apply iff_of_true
    · show (s.tails).any (likeChars []) = true
      rw [List.any_eq_true]
      exact ⟨[], (List.mem_tails [] s).mpr List.nil_suffix, rfl⟩
    · exact List.nil_prefix
  | cons c cs ih =>
    intro s
    have hc := hcs c (List.mem_cons_self c cs)
    have hcs2 : ∀ x ∈ cs, x ≠ '%' ∧ x ≠ '_' := fun x hx => hcs x (List.mem_cons_of_mem c hx)
    cases s with
    | nil =>
      apply iff_of_false
      · simp [likeChars, hc.1, hc.2]
      · simp [lowerList]
    | cons d s2 =>
      show likeChars (c :: (cs ++ ['%'])) (d :: s2) = true ↔ _
      rw [show likeChars (c :: (cs ++ ['%'])) (d :: s2)
          = ((lowerChar c == lowerChar d) && likeChars (cs ++ ['%']) s2) by
        simp [likeChars, hc.1, hc.2]]
      rw [Bool.and_eq_true, beq_iff_eq]
      show _ ↔ lowerChar c :: lowerList cs <+: lowerChar d :: lowerList s2
      rw [List.cons_prefix_cons]
      exact and_congr Iff.rfl (ih hcs2 s2)

theorem exists_suffix_iff_infix (q s : List Char) :
    (∃ t, t <:+ s ∧ lowerList q <+: lowerList t) ↔ lowerList q <:+: lowerList s := by
  constructor
  · rintro ⟨t, hts, hpre⟩
    exact List.infix_iff_prefix_suffix.mpr ⟨lowerList t, hpre, hts.map lowerChar⟩
  · intro h
    obtain ⟨u, hpre, hsuf⟩ := List.infix_iff_prefix_suffix.mp h
    obtain ⟨w, hw⟩ := hsuf
    refine ⟨s.drop w.length, List.drop_suffix w.length s, ?_⟩
    have e : lowerList (s.drop w.length) = u := by
      show (s.drop w.length).map lowerChar = u
      rw [List.map_drop]
      show (lowerList s).drop w.length = u
      rw [← hw]
      exact List.drop_left w u
    rw [e]
    exact hpre

theorem sqlLike_iff_ciSubstring (q s : String)
    (hq : ∀ c ∈ q.toList, c ≠ '%' ∧ c ≠ '_') :
    sqlLike ("%" ++ q ++ "%") s = true ↔ ciSubstring q s := by
  have hpat : ("%" ++ q ++ "%").toList = '%' :: (q.toList ++ ['%']) := by
    show ("%" ++ q ++ "%").data = '%' :: (q.data ++ ['%'])
    rw [String.data_append, String.data_append]
    rfl
  unfold sqlLike
  rw [hpat, likeChars_pct_iff]
  rw [show (∃ t, t <:+ s.toList ∧ likeChars (q.toList ++ ['%']) t = true)
      ↔ (∃ t, t <:+ s.toList ∧ lowerList q.toList <+: lowerList t) from
    exists_congr (fun t => and_congr Iff.rfl (likeChars_plain_pct q.toList hq t))]
  exact exists_suffix_iff_infix q.toList s.toList

/-- `ORDER BY disc_number, track_number, title` as the spec states it, on
returned tracks. -/
def trackOutLE (t u : TrackOut) : Prop :=
  t.disc_number < u.disc_number ∨ (t.disc_number = u.disc_number ∧
    (t.track_number < u.track_number ∨ (t.track_number = u.track_number ∧
      listLE t.title.toList u.title.toList = true)))

theorem trackLE_toOut {a b : TrackRow} (h : trackLE a b) :
    trackOutLE (toTrackOut a) (toTrackOut b) := by
  have hb : trackLEb a b = true := h
  unfold trackLEb at hb
  show a.disc_number < b.disc_number ∨ (a.disc_number = b.disc_number ∧
    (a.track_number < b.track_number ∨ (a.track_number = b.track_number ∧
      listLE a.title.toList b.title.toList = true)))
  split_ifs at hb with h1 h2 h3 h4
  · exact Or.inl h1
  · exact Or.inr ⟨by omega, Or.inl h3⟩
  · exact Or.inr ⟨by omega, Or.inr ⟨by omega, hb⟩⟩

end PiPlayer.Lib

namespace PiPlayer

open Lib

/-- C3: scanning the same remote tree twice yields the same number of
album rows and the same number of track rows as scanning it once; the
upserts are keyed on the unique album `directory` and the unique track
`file_path`, so no duplicate rows are created. -/
theorem scan_library_c3_idempotent (env : ScanEnv) (tree : List RDir) (db0 : DB)
    (h1 : (albumDirs db0).Nodup) (h2 : (trackPathsOf db0).Nodup) :
    (scan_library env tree (scan_library env tree db0).db).db.albums.length =
        (scan_library env tree db0).db.albums.length ∧
      (scan_library env tree (scan_library env tree db0).db).db.tracks.length =
        (scan_library env tree db0).db.tracks.length := by
  have n1 : (albumDirs (scan_library env tree db0).db).Nodup :=
    nodup_albumDirs_scan_library env tree db0 h1
  have n2 : (albumDirs (scan_library env tree (scan_library env tree db0).db).db).Nodup :=
    nodup_albumDirs_scan_library env tree _ n1
  have m1 : (trackPathsOf (scan_library env tree db0).db).Nodup :=
    nodup_trackPathsOf_scan_library env tree db0 h2
  have m2 : (trackPathsOf (scan_library env tree (scan_library env tree db0).db).db).Nodup :=
    nodup_trackPathsOf_scan_library env tree _ m1
  have sA : dirSet (scan_library env tree (scan_library env tree db0).db).db
      = dirSet (scan_library env tree db0).db := by
    rw [dirSet_scan_library, dirSet_scan_library, Finset.union_assoc, Finset.union_self]
  have sT : pathSet (scan_library env tree (scan_library env tree db0).db).db
      = pathSet (scan_library env tree db0).db := by
    rw [pathSet_scan_library, pathSet_scan_library, Finset.union_assoc, Finset.union_self]
  constructor
  · rw [length_albums_eq_card _ n2, length_albums_eq_card _ n1, sA]
  · rw [length_tracks_eq_card _ m2, length_tracks_eq_card _ m1, sT]

/-- A scan environment in which every tag read raises. -/
def noTagsEnv : ScanEnv := ⟨fun _ => none, 100⟩

def emptyDB : DB := ⟨[], []⟩

/-- A two-level tree: a container directory holding one album, plus a
top-level album directory. -/
def twoLevelTree : List RDir :=
  [RDir.mk "Artist" ["readme.txt"] [RDir.mk "AlbumA" ["01.flac", "02.flac", "cover.jpg"] []],
    RDir.mk "AlbumB" ["a.wav"] []]

/-- C3 witness: concrete double scan of a two-level tree from an empty
database. -/
theorem scan_library_c3_idempotent_witness :
    (albumDirs emptyDB).Nodup ∧ (trackPathsOf emptyDB).Nodup ∧
      ((scan_library noTagsEnv twoLevelTree
            (scan_library noTagsEnv twoLevelTree emptyDB).db).db.albums.length =
          (scan_library noTagsEnv twoLevelTree emptyDB).db.albums.length ∧
        (scan_library noTagsEnv twoLevelTree
            (scan_library noTagsEnv twoLevelTree emptyDB).db).db.tracks.length =
          (scan_library noTagsEnv twoLevelTree emptyDB).db.tracks.length) :=
  ⟨List.nodup_nil, List.nodup_nil,
    scan_library_c3_idempotent noTagsEnv twoLevelTree emptyDB List.nodup_nil List.nodup_nil⟩

/-- C7: a top-level directory with no directly contained audio files
contributes one album per immediate audio-bearing subdirectory — the
container heuristic goes exactly one level deep, as the count depends
only on the immediate subdirectories' own file listings. -/
theorem scan_library_c7_container (env : ScanEnv) (d : RDir) (db : DB)
    (hname : startsWithDot d.name = false) (hmf : music_files d = []) :
    (scan_library env [d] db).count =
      d.subdirs.countP (fun s => !(music_files s).isEmpty) := by
  unfold scan_library
  rw [List.foldl_cons, List.foldl_nil]
  unfold scanStepTop
  rw [hname]
  have he : (music_files d).isEmpty = true := by rw [hmf]; rfl
  rw [he]
  simp only [Bool.false_eq_true, if_false, if_true]
  rw [count_subdirFold]
  simp

/-- A container directory with two audio-bearing album subdirectories,
each of which also holds a deeper audio-bearing sub-subdirectory. -/
def containerDir : RDir :=
  RDir.mk "Artist" ["notes.txt"]
    [RDir.mk "AlbumA" ["01.flac"] [RDir.mk "Deep1" ["deep.flac"] []],
      RDir.mk "AlbumB" ["02.wav"] [RDir.mk "Deep2" ["x.flac"] []]]

/-- C7 witness: the container yields exactly 2 albums, one per audio
subdirectory; the audio-bearing sub-subdirectories a level deeper are
ignored. -/
theorem scan_library_c7_container_witness :
    startsWithDot containerDir.name = false ∧ music_files containerDir = [] ∧
      (scan_library noTagsEnv [containerDir] emptyDB).count = 2 :=
  ⟨rfl, rfl, by
    rw [scan_library_c7_container noTagsEnv containerDir emptyDB rfl rfl]
    decide⟩

/-- C10: the dot-prefix skip applies only to top-level directory names: a
dot-prefixed subdirectory of a container directory is still processed,
and when it holds supported audio files an album row keyed by its
directory is created. -/
theorem scan_library_c10_hidden_subdir (env : ScanEnv) (d s : RDir) (db : DB)
    (hname : startsWithDot d.name = false) (hmf : music_files d = [])
    (hs : s ∈ d.subdirs) (hsm : (music_files s).isEmpty = false) :
    hasAlbumDir (scan_library env [d] db).db (pathJoin d.name s.name) := by
  unfold scan_library
  rw [List.foldl_cons, List.foldl_nil]
  unfold scanStepTop
  rw [hname]
  have he : (music_files d).isEmpty = true := by rw [hmf]; rfl
  rw [he]
  simp only [Bool.false_eq_true, if_false, if_true]
  exact hasAlbumDir_subdirFold_mem env d.name d.subdirs _ s hs hsm

/-- A container directory whose only subdirectory is dot-prefixed and
audio-bearing. -/
def hiddenSubTree : RDir :=
  RDir.mk "Artist" ["readme.txt"] [RDir.mk ".hidden" ["01.flac"] []]

/-- C10 witness: the dot-prefixed subdirectory is indexed as an album. -/
theorem scan_library_c10_hidden_subdir_witness :
    startsWithDot hiddenSubTree.name = false ∧ music_files hiddenSubTree = [] ∧
      RDir.mk ".hidden" ["01.flac"] [] ∈ hiddenSubTree.subdirs ∧
      startsWithDot (RDir.mk ".hidden" ["01.flac"] []).name = true ∧
      (music_files (RDir.mk ".hidden" ["01.flac"] [])).isEmpty = false ∧
      hasAlbumDir (scan_library noTagsEnv [hiddenSubTree] emptyDB).db
        (pathJoin hiddenSubTree.name (RDir.mk ".hidden" ["01.flac"] []).name) :=
  ⟨rfl, rfl, List.mem_singleton_self _, rfl, rfl,
    scan_library_c10_hidden_subdir noTagsEnv hiddenSubTree (RDir.mk ".hidden" ["01.flac"] [])
      emptyDB rfl rfl (List.mem_singleton_self _) rfl⟩

end PiPlayer

namespace PiPlayer

open Lib

/-- C8: a file whose tag read raises gets a track row with the filename
stem as title, the album's artist, track number 0, disc number 1 and
duration 0; the corresponding warning is logged and the album still
counts as processed (count 1 — neither the album nor the scan fails). -/
theorem process_c8_tag_fallback (env : ScanEnv) (p : String) (d : RDir) (db : DB) (fn : String)
    (hf : fn ∈ music_files d)
    (ht : env.tags (pathJoin MOUNT_POINT (pathJoin p fn)) = none) :
    (∃ t ∈ (process_album_directory env p d db).db.tracks,
        t.file_path = pathJoin p fn ∧ t.title = stem fn ∧
        t.artist = (albumMeta env p d).artist ∧ t.track_number = 0 ∧
        t.disc_number = 1 ∧ t.duration = 0) ∧
      ("Error reading tags from " ++ pathJoin MOUNT_POINT (pathJoin p fn))
          ∈ (process_album_directory env p d db).log ∧
      (process_album_directory env p d db).count = 1 := by
  have hne : (music_files d).isEmpty = false := by
    cases hmf : music_files d
    · rw [hmf] at hf
      exact absurd hf (List.not_mem_nil fn)
    · rfl
  have htf : trackFieldsFor env p (albumMeta env p d).artist fn =
      ⟨stem fn, (albumMeta env p d).artist, 0, 1, 0⟩ := by
    unfold trackFieldsFor trackFields
    rw [ht]
  unfold process_album_directory
  rw [hne]
  simp only [Bool.false_eq_true, if_false]
  refine ⟨?_, ?_, trivial⟩
  · have h := hasTrackRow_processTracks env p (albumMeta env p d).artist
      (albumUpsertOf env p d db).2 (music_files d) (albumUpsertOf env p d db).1
      (albumWarnOf env p d) fn (Or.inl hf)
    rw [htf] at h
    obtain ⟨t, ht1, h1, h2, h3, h4, h5, h6⟩ := h
    exact ⟨t, ht1, h1, h2, h3, h4, h5, h6⟩
  · exact log_processTracks env p (albumMeta env p d).artist (albumUpsertOf env p d db).2
      (music_files d) (albumUpsertOf env p d db).1 (albumWarnOf env p d) fn ht (Or.inl hf)

/-- A one-album directory whose single audio file has unreadable tags. -/
def badTagsDir : RDir := RDir.mk "AlbumX" ["07 - Song.flac", "cover.jpg"] []

/-- C8 witness: the concrete fallback row, warning and count. -/
theorem process_c8_tag_fallback_witness :
    ("07 - Song.flac" ∈ music_files badTagsDir) ∧
      noTagsEnv.tags (pathJoin MOUNT_POINT (pathJoin "AlbumX" "07 - Song.flac")) = none ∧
      ((∃ t ∈ (process_album_directory noTagsEnv "AlbumX" badTagsDir emptyDB).db.tracks,
          t.file_path = pathJoin "AlbumX" "07 - Song.flac" ∧
          t.title = stem "07 - Song.flac" ∧
          t.artist = (albumMeta noTagsEnv "AlbumX" badTagsDir).artist ∧ t.track_number = 0 ∧
          t.disc_number = 1 ∧ t.duration = 0) ∧
        ("Error reading tags from " ++
            pathJoin MOUNT_POINT (pathJoin "AlbumX" "07 - Song.flac"))
            ∈ (process_album_directory noTagsEnv "AlbumX" badTagsDir emptyDB).log ∧
        (process_album_directory noTagsEnv "AlbumX" badTagsDir emptyDB).count = 1) :=
  ⟨by decide, by rfl,
    process_c8_tag_fallback noTagsEnv "AlbumX" badTagsDir emptyDB "07 - Song.flac"
      (by decide) (by rfl)⟩

end PiPlayer
namespace PiPlayer

open Lib

/-- C4: re-processing an album directory already present in the index
replaces its row with a newly inserted row carrying a fresh surrogate id:
SQLite chooses the new rowid before the REPLACE resolution deletes the
conflicting row, so it exceeds every id in use, the replaced one
included.  Consequently the old album id dangles and `get_album_by_id`
returns `none` after the re-scan. -/
theorem rescan_c4_fresh_id (env : ScanEnv) (p : String) (d : RDir) (db : DB) (a : AlbumRow)
    (hid : (db.albums.map AlbumRow.id).Nodup)
    (ha : a ∈ db.albums) (had : a.directory = p)
    (hmf : (music_files d).isEmpty = false) :
    (∃ r ∈ (process_album_directory env p d db).db.albums,
        r.directory = p ∧ a.id < r.id) ∧
      get_album_by_id (process_album_directory env p d db).db a.id = none := by
  have hle : a.id ≤ ((db.albums.map AlbumRow.id).foldr max 0) :=
    le_foldr_max a.id _ (List.mem_map.mpr ⟨a, ha, rfl⟩)
  constructor
  · rw [albums_process_nonempty_eq env p d db hmf]
    refine ⟨_, List.mem_append_right _ (List.mem_singleton_self _), rfl, ?_⟩
    show a.id < nextRowid (db.albums.map AlbumRow.id)
    unfold nextRowid
    omega
  · unfold get_album_by_id
    rw [albums_process_nonempty_eq env p d db hmf]
    have hnone : (db.albums.filter (fun (r : AlbumRow) => r.directory != p) ++
        [(⟨nextRowid (db.albums.map AlbumRow.id),
          (albumMeta env p d).title, (albumMeta env p d).artist, (albumMeta env p d).year,
          p, albumCover p d, env.now⟩ : AlbumRow)]).find?
          (fun (r : AlbumRow) => r.id == a.id) = none := by
      rw [List.find?_eq_none]
      intro x hx
      rcases List.mem_append.mp hx with hx1 | hx2
      · have hxmem := List.mem_of_mem_filter hx1
        have hxp := List.of_mem_filter hx1
        intro hxa
        have hxa2 : x.id = a.id := by simpa using hxa
        have hxeq : x = a := List.inj_on_of_nodup_map hid hxmem ha hxa2
        subst hxeq
        rw [had] at hxp
        simp at hxp
      · rw [List.mem_singleton] at hx2
        subst hx2
        intro hxa
        have hxa2 : nextRowid (db.albums.map AlbumRow.id) = a.id := by simpa using hxa
        unfold nextRowid at hxa2
        omega
    rw [hnone]

/-- A single-album index with id 1. -/
def oneAlbumDB : DB := ⟨[⟨1, "AlbumA", "X", "2020", "AlbumA", none, 0⟩], []⟩

/-- C4 witness: re-processing "AlbumA" in a single-album index inserts a
row with a strictly larger id and leaves id 1 dangling. -/
theorem rescan_c4_fresh_id_witness :
    (oneAlbumDB.albums.map AlbumRow.id).Nodup ∧
      (⟨1, "AlbumA", "X", "2020", "AlbumA", none, 0⟩ : AlbumRow) ∈ oneAlbumDB.albums ∧
      ((∃ r ∈ (process_album_directory noTagsEnv "AlbumA"
            (RDir.mk "AlbumA" ["01.flac"] []) oneAlbumDB).db.albums,
          r.directory = "AlbumA" ∧ 1 < r.id) ∧
        get_album_by_id (process_album_directory noTagsEnv "AlbumA"
          (RDir.mk "AlbumA" ["01.flac"] []) oneAlbumDB).db 1 = none) :=
  ⟨by decide, by decide,
    rescan_c4_fresh_id noTagsEnv "AlbumA" (RDir.mk "AlbumA" ["01.flac"] []) oneAlbumDB
      ⟨1, "AlbumA", "X", "2020", "AlbumA", none, 0⟩ (by decide) (by decide) rfl rfl⟩

end PiPlayer

namespace PiPlayer

open Lib

/-- C6 counterexample: the query string is spliced into the `LIKE`
pattern unescaped, so its wildcards are interpreted.  The query `"%"`
matches the album titled "abc" (artist "xyz") although `"%"` is not a
case-insensitive substring of either field — the claim's "for every query
string ... matched by case-insensitive substring" fails. -/
theorem search_albums_c6_counterexample :
    (search_albums ⟨[⟨1, "abc", "xyz", "2020", "abc", none, 0⟩], []⟩ "%").map
        AlbumOut.title = ["abc"] ∧
      ¬ ciSubstring "%" "abc" ∧ ¬ ciSubstring "%" "xyz" :=
  ⟨by decide, by decide, by decide⟩

/-- C6 (amended): for every query containing no `LIKE` wildcard (`%` or
`_`), `search_albums` returns at most 10 albums, each matched by
case-insensitive substring against title or artist, ordered ascending by
title (byte-wise, SQLite's BINARY collation), with each album's tracks
ordered by (disc number, track number, title). -/
theorem search_albums_c6_amended (db : DB) (q : String)
    (hq : ∀ c ∈ q.toList, c ≠ '%' ∧ c ≠ '_') :
    (search_albums db q).length ≤ 10 ∧
      (search_albums db q).Pairwise
        (fun a b => listLE a.title.toList b.title.toList = true) ∧
      (∀ a ∈ search_albums db q, ciSubstring q a.title ∨ ciSubstring q a.artist) ∧
      (∀ a ∈ search_albums db q, a.tracks.Pairwise trackOutLE) := by
  refine ⟨?_, ?_, ?_, ?_⟩
  · rw [search_albums, List.length_map]
    exact List.length_take_le 10 _
  · rw [search_albums]
    refine (List.pairwise_map).mpr ?_
    have hs := List.sorted_insertionSort albumTitleLE
      (db.albums.filter (fun a => sqlLike ("%" ++ q ++ "%") a.title
        || sqlLike ("%" ++ q ++ "%") a.artist))
    exact (hs.sublist (List.take_sublist 10 _)).imp (fun h => h)
  · intro a ha
    rw [search_albums] at ha
    obtain ⟨r, hr, rfl⟩ := List.mem_map.mp ha
    have hr2 := List.take_subset 10 _ hr
    have hr3 := (List.perm_insertionSort albumTitleLE _).mem_iff.mp hr2
    have hp := (List.mem_filter.mp hr3).2
    rw [Bool.or_eq_true] at hp
    rcases hp with hp | hp
    · exact Or.inl ((sqlLike_iff_ciSubstring q r.title hq).mp hp)
    · exact Or.inr ((sqlLike_iff_ciSubstring q r.artist hq).mp hp)
  · intro a ha
    rw [search_albums] at ha
    obtain ⟨r, hr, rfl⟩ := List.mem_map.mp ha
    show (tracks_for db r.id).Pairwise trackOutLE
    rw [tracks_for]
    refine (List.pairwise_map).mpr ?_
    have hs := List.sorted_insertionSort trackLE
      (db.tracks.filter (fun t => t.album_id == r.id))
    exact hs.imp (fun h => trackLE_toOut h)

/-- C6 amended witness: a wildcard-free query on a one-album database. -/
theorem search_albums_c6_amended_witness :
    (∀ c ∈ ("b" : String).toList, c ≠ '%' ∧ c ≠ '_') ∧
      ((search_albums ⟨[⟨1, "abc", "xyz", "2020", "abc", none, 0⟩], []⟩ "b").length ≤ 10 ∧
        (search_albums ⟨[⟨1, "abc", "xyz", "2020", "abc", none, 0⟩], []⟩ "b").Pairwise
          (fun a b => listLE a.title.toList b.title.toList = true) ∧
        (∀ a ∈ search_albums ⟨[⟨1, "abc", "xyz", "2020", "abc", none, 0⟩], []⟩ "b",
          ciSubstring "b" a.title ∨ ciSubstring "b" a.artist) ∧
        (∀ a ∈ search_albums ⟨[⟨1, "abc", "xyz", "2020", "abc", none, 0⟩], []⟩ "b",
          a.tracks.Pairwise trackOutLE)) :=
  ⟨by decide,
    search_albums_c6_amended ⟨[⟨1, "abc", "xyz", "2020", "abc", none, 0⟩], []⟩ "b" (by decide)⟩

end PiPlayer
